import Mathlib

/-!
Shallow embedding of the reactive dependency-tracking engine in
`src/vue3-reactive.js` (a minimal Vue3-style reactivity core).

The JavaScript module keeps four pieces of global mutable state:
  * `toProxy`   : WeakMap raw object -> proxy          (line 4)
  * `toRaw`     : WeakMap proxy -> raw object          (line 6)
  * `activeEffectStack` : array of running effects     (line 90)
  * `targetMap` : WeakMap raw -> Map key -> Set effect (line 135)
plus the heap of raw objects themselves.  We model all of it as one
explicit state record `RState`.  Object and proxy references share a
single identity namespace of natural numbers (`Value.ref`); effects are
identified by the order of their creation (`nextEff` counter), matching
the fact that every call to `createReactiveEffect` makes a fresh closure
with its own identity.  A `runLog` records, in order, each invocation of
an effect handle (the moment `run` pushes it and calls the callback);
it is the observation used to state "computation X was (re-)invoked".

User callbacks passed to `effect` are embedded as a small deep syntax
(`Exp`, `Prog`) of property reads, writes, deletes, sequencing and a
throwing statement; the engine itself (get/set/delete traps, track,
trigger, run, effect) is translated function by function from the
source.  Because `trigger` synchronously re-runs effects, which run
arbitrary programs, evaluation is given fuel; running out of fuel is
the model of JavaScript stack exhaustion and is distinguished from
normal termination and from user exceptions by `Err`.
-/

namespace Reactive

/-- JavaScript values as far as this module distinguishes them: scalar
primitives, `undefined`, object references (raw objects and proxies share
one identity namespace) and function references (effect handles).
`typeof fn === 'function'`, not `'object'`, so `isObject` is false on it. -/
inductive Value where
  | prim (n : Int)
  | undefined
  | ref (id : Nat)
  | fn (id : Nat)
deriving DecidableEq

/-- Expressions a user callback can evaluate: constants and property
reads `e.k` (which route through the proxy `get` trap when `e` evaluates
to a proxy reference). -/
inductive Exp where
  | const (v : Value)
  | getf (a : Exp) (k : String)
deriving DecidableEq

/-- Statements of a user callback, plus two engine-internal forms:
`runList l` is the body of `trigger`'s `deps.forEach(effect => effect())`
and `runOne e` is one invocation of an effect handle (`run(effect, fn)`).
User-written callbacks never contain the internal forms. -/
inductive Prog where
  | skip
  | seq (p q : Prog)
  | readE (e : Exp)
  | setf (target : Exp) (k : String) (v : Exp)
  | delf (target : Exp) (k : String)
  | fail
  | runList (l : List Nat)
  | runOne (e : Nat)
deriving DecidableEq

/-- Outcomes distinguishing a user exception thrown by a callback
(`fail`) from exhausting the call-stack budget (`outOfFuel`). -/
inductive Err where
  | outOfFuel
  | userErr
deriving DecidableEq

/-- Association-list lookup (the model of `Map.get` / `WeakMap.get`). -/
def alGet {α β : Type} [DecidableEq α] (l : List (α × β)) (k : α) : Option β :=
  match l with
  | [] => none
  | (a, b) :: t => if a = k then some b else alGet t k

/-- Association-list update: replace the binding in place if the key is
present, append otherwise (JavaScript objects and Maps preserve insertion
order). -/
def alSet {α β : Type} [DecidableEq α] (l : List (α × β)) (k : α) (v : β) : List (α × β) :=
  match l with
  | [] => [(k, v)]
  | (a, b) :: t => if a = k then (k, v) :: t else (a, b) :: alSet t k v

/-- Association-list delete (model of `Reflect.deleteProperty` /
`delete o[k]`): every binding of the key is removed. -/
def alDel {α β : Type} [DecidableEq α] : List (α × β) → α → List (α × β)
  | [], _ => []
  | (a, b) :: t, k => if a = k then alDel t k else (a, b) :: alDel t k

/-- The global state of the module: the heap of raw objects and the four
global registries of `vue3-reactive.js`, an allocation counter for object
identities, the effect registry with its counter, and the observation log
of effect invocations. -/
structure RState where
  heap : List (Nat × List (String × Value))
  toProxy : List (Nat × Nat)
  toRaw : List (Nat × Nat)
  nextId : Nat
  targetMap : List (Nat × List (String × List Nat))
  activeEffectStack : List Nat
  effects : List (Nat × Prog)
  nextEff : Nat
  runLog : List Nat
deriving DecidableEq

/-- The empty initial state. -/
def s0 : RState :=
  { heap := [], toProxy := [], toRaw := [], nextId := 0, targetMap := [],
    activeEffectStack := [], effects := [], nextEff := 0, runLog := [] }

/-- `isObject` (source lines 12-14): `typeof value === 'object' && value !== null`.
Only `ref` values are objects; functions and scalars are not. -/
def isObject : Value → Bool
  | .ref _ => true
  | _ => false

/-- `hasKey` (source lines 29-31): `target.hasOwnProperty(key)` on the raw
object `target`. -/
def hasKey (s : RState) (target : Nat) (k : String) : Bool :=
  match alGet s.heap target with
  | some fs => (alGet fs k).isSome
  | none => false

/-- `Reflect.get(target, key)` on a raw object: the stored value, or
`undefined` when the key (or the object) is absent. -/
def rawGet (s : RState) (target : Nat) (k : String) : Value :=
  match alGet s.heap target with
  | some fs => (alGet fs k).getD .undefined
  | none => .undefined

/-- `Reflect.set(target, key, value)` landing on the raw object (the
`set` trap's `Reflect.set(target, key, value, receiver)` defines the
property on the raw target for plain data objects). -/
def setRaw (s : RState) (target : Nat) (k : String) (v : Value) : RState :=
  { s with heap := alSet s.heap target (alSet ((alGet s.heap target).getD []) k v) }

/-- `Reflect.deleteProperty(target, key)` on the raw object. -/
def delRaw (s : RState) (target : Nat) (k : String) : RState :=
  { s with heap := alSet s.heap target (alDel ((alGet s.heap target).getD []) k) }

/-- `createReactiveObject` (source lines 37-85): non-objects are returned
unchanged; a raw object already registered in `toProxy` yields its
existing proxy; a value that is itself a proxy (a key of `toRaw`) is
returned unchanged; otherwise a fresh proxy identity is allocated and
registered in both maps. -/
def createReactiveObject (s : RState) (v : Value) : RState × Value :=
  match v with
  | .ref id =>
    match alGet s.toProxy id with
    | some p => (s, .ref p)
    | none =>
      if (alGet s.toRaw id).isSome then (s, v)
      else
        ({ s with toProxy := (id, s.nextId) :: s.toProxy,
                  toRaw := (s.nextId, id) :: s.toRaw,
                  nextId := s.nextId + 1 }, .ref s.nextId)
  | _ => (s, v)

/-- `reactive` (source lines 20-22): delegates to `createReactiveObject`. -/
def reactive (s : RState) (v : Value) : RState × Value :=
  createReactiveObject s v

/-- `track` (source lines 142-157): attribute a read of `(target, k)` to
the top of the active-effect stack, if any; the per-target map and the
per-key dependency set are created on demand and the effect is added only
if not already present (Set semantics, insertion order kept). -/
def track (s : RState) (target : Nat) (k : String) : RState :=
  match s.activeEffectStack.getLast? with
  | none => s
  | some eff =>
    let depsMap := (alGet s.targetMap target).getD []
    let deps := (alGet depsMap k).getD []
    let deps2 := if deps.contains eff then deps else deps ++ [eff]
    { s with targetMap := alSet s.targetMap target (alSet depsMap k deps2) }

/-- The dependency set recorded for `(target, k)`, empty when either map
level is missing (the lookups at the head of `trigger`, lines 165-168). -/
def depsOf (s : RState) (target : Nat) (k : String) : List Nat :=
  match alGet s.targetMap target with
  | none => []
  | some depsMap => (alGet depsMap k).getD []

/-- The proxy `get` trap (source lines 52-61): read the underlying value,
call `track`, and wrap object results on the way out (lazy deep
reactivity). -/
def baseGet (s : RState) (target : Nat) (k : String) : RState × Value :=
  let result := rawGet s target k
  let s1 := track s target k
  if isObject result then createReactiveObject s1 result else (s1, result)

/-- The proxy `deleteProperty` trap (source lines 75-79): perform the
underlying delete and nothing else (the `console.log` has no state
effect; no `trigger` call exists on this path). -/
def baseDelete (s : RState) (target : Nat) (k : String) : RState :=
  delRaw s target k

/-- Evaluate an expression of a callback.  A property read on a proxy
reference routes through the `get` trap `baseGet`; a read on a plain raw
object is an untracked heap read; property access on a non-object yields
`undefined` (the programs appearing in this development never read a
property of `undefined`, whose JavaScript behaviour would be a TypeError). -/
def evalExp (s : RState) (e : Exp) : RState × Value :=
  match e with
  | .const v => (s, v)
  | .getf a k =>
    match evalExp s a with
    | (s1, .ref rid) =>
      match alGet s1.toRaw rid with
      | some target => baseGet s1 target k
      | none => (s1, rawGet s1 rid k)
    | (s1, _) => (s1, .undefined)

/-- The interpreter for callback programs and the engine-internal run
forms, with fuel as the call-stack budget.  `runOne e` is `run(effect, fn)`
(source lines 117-125): push the handle, log the invocation, interpret the
registered callback, and pop on every exit path (the `finally`).  `runList`
is `trigger`'s `deps.forEach(effect => effect())` (lines 169-171), stopping
early if an invocation throws.  `setf` through a proxy is the `set` trap
(lines 62-74): capture `hasOwnProperty` and the old value, write, then
replay the recorded dependents when the key was absent (add) or the value
changed (set). -/
def interp : Nat → RState → Prog → RState × Option Err
  | 0, s, _ => (s, some .outOfFuel)
  | _ + 1, s, .skip => (s, none)
  | _ + 1, s, .fail => (s, some .userErr)
  | f + 1, s, .seq p q =>
    match interp f s p with
    | (s1, none) => interp f s1 q
    | (s1, some er) => (s1, some er)
  | _ + 1, s, .readE e => ((evalExp s e).1, none)
  | f + 1, s, .setf te k ve =>
    let (sa, tv) := evalExp s te
    let (sb, vv) := evalExp sa ve
    match tv with
    | .ref rid =>
      match alGet sb.toRaw rid with
      | some target =>
        let isOwn := hasKey sb target k
        let oldValue := rawGet sb target k
        let s1 := setRaw sb target k vv
        if isOwn = false then interp f s1 (.runList (depsOf s1 target k))
        else if oldValue ≠ vv then interp f s1 (.runList (depsOf s1 target k))
        else (s1, none)
      | none => (setRaw sb rid k vv, none)
    | _ => (sb, none)
  | _ + 1, s, .delf te k =>
    let (sa, tv) := evalExp s te
    match tv with
    | .ref rid =>
      match alGet sa.toRaw rid with
      | some target => (baseDelete sa target k, none)
      | none => (delRaw sa rid k, none)
    | _ => (sa, none)
  | _ + 1, s, .runList [] => (s, none)
  | f + 1, s, .runList (e :: t) =>
    match interp f s (.runOne e) with
    | (s1, none) => interp f s1 (.runList t)
    | (s1, some er) => (s1, some er)
  | f + 1, s, .runOne e =>
    let p := (alGet s.effects e).getD .skip
    let s1 := { s with activeEffectStack := s.activeEffectStack ++ [e],
                       runLog := s.runLog ++ [e] }
    match interp f s1 p with
    | (s2, r) => ({ s2 with activeEffectStack := s2.activeEffectStack.dropLast }, r)

/-- `trigger` (source lines 164-174): look up the dependency set for
`(target, k)` and invoke every recorded effect in order; the `type`
argument (`"add"` or `"set"`) is accepted and ignored, as in the source. -/
def trigger (fuel : Nat) (s : RState) (target : Nat) (_ty : String) (k : String) :
    RState × Option Err :=
  interp fuel s (.runList (depsOf s target k))

/-- The proxy `set` trap as a standalone function (source lines 62-74),
identical to the `setf` dispatch of `interp` once the raw target is known:
`isOwn` and `oldValue` are captured before the write, the write always
lands, and `trigger` runs for an add (key not owned) or a changed value. -/
def baseSet (fuel : Nat) (s : RState) (target : Nat) (k : String) (v : Value) :
    RState × Option Err :=
  let isOwn := hasKey s target k
  let oldValue := rawGet s target k
  let s1 := setRaw s target k v
  if isOwn = false then trigger fuel s1 target "add" k
  else if oldValue ≠ v then trigger fuel s1 target "set" k
  else (s1, none)

/-- `run(effect, fn)` invoked on a registered effect handle (source lines
117-125), as it is reached through the interpreter. -/
def run (fuel : Nat) (s : RState) (e : Nat) : RState × Option Err :=
  interp fuel s (.runOne e)

/-- `createReactiveEffect` (source lines 106-111): allocate a fresh handle
identity for the callback and register it; the handle is returned. -/
def createReactiveEffect (s : RState) (p : Prog) : RState × Nat :=
  ({ s with effects := (s.nextEff, p) :: s.effects, nextEff := s.nextEff + 1 },
   s.nextEff)

/-- `effect` (source lines 96-100): create the handle and invoke it once
immediately.  The JavaScript function body has no `return` statement, so
the call expression evaluates to `undefined`; had the source returned its
local `effect` handle, the value would be `Value.fn` of the handle
identity. -/
def effect (fuel : Nat) (s : RState) (p : Prog) : RState × Option Err × Value :=
  let se := createReactiveEffect s p
  let out := interp fuel se.1 (.runOne se.2)
  (out.1, out.2, Value.undefined)

/-! ### Association-list lemmas -/

/-- A successful lookup exhibits a member of the list. -/
theorem alGet_mem {α β : Type} [DecidableEq α] :
    ∀ (l : List (α × β)) (k : α) (v : β), alGet l k = some v → (k, v) ∈ l := by
  intro l
  induction l with
  | nil => intro k v h; simp [alGet] at h
  | cons a t ih =>
    intro k v h
    obtain ⟨x, y⟩ := a
    simp only [alGet] at h
    split at h
    case isTrue hxk =>
      simp only [Option.some.injEq] at h
      subst hxk; subst h
      exact List.mem_cons_self _ _
    case isFalse hxk =>
      exact List.mem_cons_of_mem _ (ih k v h)

/-- Looking up a key strictly above every key of the list fails. -/
theorem alGet_keys_lt_none {β : Type} :
    ∀ (l : List (Nat × β)) (n : Nat), (∀ x ∈ l, x.1 < n) → alGet l n = none := by
  intro l
  induction l with
  | nil => intro n _; rfl
  | cons a t ih =>
    intro n h
    obtain ⟨x, y⟩ := a
    have hx : x < n := h (x, y) (List.mem_cons_self _ _)
    simp only [alGet]
    rw [if_neg (Nat.ne_of_lt hx)]
    exact ih n (fun z hz => h z (List.mem_cons_of_mem _ hz))

/-- Lookup after update at the same key yields the written value. -/
theorem alGet_alSet_self {α β : Type} [DecidableEq α] :
    ∀ (l : List (α × β)) (k : α) (v : β), alGet (alSet l k v) k = some v := by
  intro l
  induction l with
  | nil => intro k v; simp [alSet, alGet]
  | cons a t ih =>
    intro k v
    obtain ⟨x, y⟩ := a
    simp only [alSet]
    by_cases hx : x = k
    · rw [if_pos hx]; simp [alGet]
    · rw [if_neg hx]; simp only [alGet]; rw [if_neg hx]; exact ih k v

/-- Lookup after delete at the same key fails. -/
theorem alGet_alDel_self {α β : Type} [DecidableEq α] :
    ∀ (l : List (α × β)) (k : α), alGet (alDel l k) k = none := by
  intro l
  induction l with
  | nil => intro k; rfl
  | cons a t ih =>
    intro k
    obtain ⟨x, y⟩ := a
    simp only [alDel]
    by_cases hx : x = k
    · rw [if_pos hx]; exact ih k
    · rw [if_neg hx]; simp only [alGet]; rw [if_neg hx]; exact ih k

/-- Dropping the last element of a one-element extension recovers the
original list (the push/pop pairing of the active-effect stack). -/
theorem dropLast_snoc {α : Type} : ∀ (l : List α) (a : α), (l ++ [a]).dropLast = l := by
  intro l a
  simp

/-! ### Frame lemmas: which state components each operation leaves alone -/

/-- `track` only rewrites the dependency graph. -/
theorem track_frame (s : RState) (t : Nat) (k : String) :
    (track s t k).heap = s.heap ∧ (track s t k).toProxy = s.toProxy ∧
    (track s t k).toRaw = s.toRaw ∧ (track s t k).nextId = s.nextId ∧
    (track s t k).activeEffectStack = s.activeEffectStack ∧
    (track s t k).effects = s.effects ∧ (track s t k).nextEff = s.nextEff ∧
    (track s t k).runLog = s.runLog := by
  unfold track
  split <;> simp

/-- `createReactiveObject` only rewrites the identity registries and the
allocation counter. -/
theorem createReactiveObject_frame (s : RState) (v : Value) :
    ((createReactiveObject s v).1).heap = s.heap ∧
    ((createReactiveObject s v).1).targetMap = s.targetMap ∧
    ((createReactiveObject s v).1).activeEffectStack = s.activeEffectStack ∧
    ((createReactiveObject s v).1).effects = s.effects ∧
    ((createReactiveObject s v).1).nextEff = s.nextEff ∧
    ((createReactiveObject s v).1).runLog = s.runLog := by
  unfold createReactiveObject
  cases v with
  | ref id =>
    dsimp only
    split
    · simp
    · split <;> simp
  | prim n => simp
  | undefined => simp
  | fn i => simp

/-- The `get` trap never touches the heap, the stack, the effect registry
or the invocation log. -/
theorem baseGet_frame (s : RState) (t : Nat) (k : String) :
    ((baseGet s t k).1).heap = s.heap ∧
    ((baseGet s t k).1).activeEffectStack = s.activeEffectStack ∧
    ((baseGet s t k).1).effects = s.effects ∧
    ((baseGet s t k).1).nextEff = s.nextEff ∧
    ((baseGet s t k).1).runLog = s.runLog := by
  unfold baseGet
  have ht := track_frame s t k
  dsimp only
  split
  · have hc := createReactiveObject_frame (track s t k) (rawGet s t k)
    exact ⟨hc.1.trans ht.1, hc.2.2.1.trans ht.2.2.2.2.1,
           hc.2.2.2.1.trans ht.2.2.2.2.2.1, hc.2.2.2.2.1.trans ht.2.2.2.2.2.2.1,
           hc.2.2.2.2.2.trans ht.2.2.2.2.2.2.2⟩
  · exact ⟨ht.1, ht.2.2.2.2.1, ht.2.2.2.2.2.1, ht.2.2.2.2.2.2.1, ht.2.2.2.2.2.2.2⟩

/-- Expression evaluation (reads only) never touches the heap, the stack,
the effect registry or the invocation log. -/
theorem evalExp_frame :
    ∀ (e : Exp) (s : RState),
      ((evalExp s e).1).heap = s.heap ∧
      ((evalExp s e).1).activeEffectStack = s.activeEffectStack ∧
      ((evalExp s e).1).effects = s.effects ∧
      ((evalExp s e).1).nextEff = s.nextEff ∧
      ((evalExp s e).1).runLog = s.runLog := by
  intro e
  induction e with
  | const v => intro s; exact ⟨rfl, rfl, rfl, rfl, rfl⟩
  | getf a k ih =>
    intro s
    have ha := ih s
    simp only [evalExp]
    rcases hv : evalExp s a with ⟨s1, v⟩
    rw [hv] at ha
    cases v with
    | ref rid =>
      dsimp only
      rcases hr : alGet s1.toRaw rid with _ | target
      · exact ha
      · have hb := baseGet_frame s1 target k
        exact ⟨hb.1.trans ha.1, hb.2.1.trans ha.2.1, hb.2.2.1.trans ha.2.2.1,
               hb.2.2.2.1.trans ha.2.2.2.1, hb.2.2.2.2.trans ha.2.2.2.2⟩
    | prim n => exact ha
    | undefined => exact ha
    | fn i => exact ha

/-! ### Interpreter invariants -/

/-- Running any program leaves the effect registry, its counter and the
active-effect stack as they were: nothing but `createReactiveEffect`
registers effects, and every `runOne` pops exactly what it pushed, on
both exit paths. -/
theorem interp_frame :
    ∀ (fuel : Nat) (p : Prog) (s : RState),
      ((interp fuel s p).1).effects = s.effects ∧
      ((interp fuel s p).1).nextEff = s.nextEff ∧
      ((interp fuel s p).1).activeEffectStack = s.activeEffectStack := by
  intro fuel
  induction fuel with
  | zero => intro p s; exact ⟨rfl, rfl, rfl⟩
  | succ f ih =>
    intro p s
    cases p with
    | skip => exact ⟨rfl, rfl, rfl⟩
    | fail => exact ⟨rfl, rfl, rfl⟩
    | readE e =>
      have ha := evalExp_frame e s
      exact ⟨ha.2.2.1, ha.2.2.2.1, ha.2.1⟩
    | seq p q =>
      simp only [interp]
      rcases h1 : interp f s p with ⟨s1, r⟩
      have e1 := ih p s
      rw [h1] at e1
      cases r with
      | none =>
        have e2 := ih q s1
        exact ⟨e2.1.trans e1.1, e2.2.1.trans e1.2.1, e2.2.2.trans e1.2.2⟩
      | some er => exact e1
    | setf te k ve =>
      have ha := evalExp_frame te s
      rcases hA : evalExp s te with ⟨sa, tv⟩
      rw [hA] at ha
      have hb := evalExp_frame ve sa
      rcases hB : evalExp sa ve with ⟨sb, vv⟩
      rw [hB] at hb
      have hchain : sb.effects = s.effects ∧ sb.nextEff = s.nextEff ∧
          sb.activeEffectStack = s.activeEffectStack :=
        ⟨hb.2.2.1.trans ha.2.2.1, hb.2.2.2.1.trans ha.2.2.2.1, hb.2.1.trans ha.2.1⟩
      simp only [interp, hA, hB]
      cases tv with
      | ref rid =>
        dsimp only
        rcases hr : alGet sb.toRaw rid with _ | target
        · exact hchain
        · dsimp only
          split
          · have e1 := ih (.runList (depsOf (setRaw sb target k vv) target k))
              (setRaw sb target k vv)
            exact ⟨e1.1.trans hchain.1, e1.2.1.trans hchain.2.1, e1.2.2.trans hchain.2.2⟩
          · split
            · have e1 := ih (.runList (depsOf (setRaw sb target k vv) target k))
                (setRaw sb target k vv)
              exact ⟨e1.1.trans hchain.1, e1.2.1.trans hchain.2.1, e1.2.2.trans hchain.2.2⟩
            · exact hchain
      | prim n => exact hchain
      | undefined => exact hchain
      | fn i => exact hchain
    | delf te k =>
      have ha := evalExp_frame te s
      rcases hA : evalExp s te with ⟨sa, tv⟩
      rw [hA] at ha
      have hchain : sa.effects = s.effects ∧ sa.nextEff = s.nextEff ∧
          sa.activeEffectStack = s.activeEffectStack := ⟨ha.2.2.1, ha.2.2.2.1, ha.2.1⟩
      simp only [interp, hA]
      cases tv with
      | ref rid =>
        dsimp only
        rcases hr : alGet sa.toRaw rid with _ | target
        · exact hchain
        · exact hchain
      | prim n => exact hchain
      | undefined => exact hchain
      | fn i => exact hchain
    | runList l =>
      cases l with
      | nil => exact ⟨rfl, rfl, rfl⟩
      | cons e t =>
        simp only [interp]
        rcases h1 : interp f s (.runOne e) with ⟨s1, r⟩
        have e1 := ih (.runOne e) s
        rw [h1] at e1
        cases r with
        | none =>
          have e2 := ih (.runList t) s1
          exact ⟨e2.1.trans e1.1, e2.2.1.trans e1.2.1, e2.2.2.trans e1.2.2⟩
        | some er => exact e1
    | runOne e =>
      simp only [interp]
      rcases h1 : interp f
          { s with activeEffectStack := s.activeEffectStack ++ [e],
                   runLog := s.runLog ++ [e] }
          ((alGet s.effects e).getD .skip) with ⟨s2, r⟩
      have e1 := ih ((alGet s.effects e).getD .skip)
        { s with activeEffectStack := s.activeEffectStack ++ [e],
                 runLog := s.runLog ++ [e] }
      rw [h1] at e1
      refine ⟨e1.1, e1.2.1, ?_⟩
      show s2.activeEffectStack.dropLast = s.activeEffectStack
      rw [e1.2.2]
      exact dropLast_snoc _ _

/-- A callback that performs no property writes and no deletes (reads,
sequencing, and possibly throwing are allowed).  Such a callback can
never reach `trigger`, hence never re-invokes any effect.  The
engine-internal run forms are excluded. -/
def WriteFree : Prog → Bool
  | .skip => true
  | .seq p q => WriteFree p && WriteFree q
  | .readE _ => true
  | .fail => true
  | _ => false

/-- All registered callbacks are write-free. -/
def AllWriteFree (s : RState) : Bool :=
  s.effects.all (fun ep => WriteFree ep.2)

/-- Interpreting a write-free program appends nothing to the invocation
log (no effect handle is ever invoked by it). -/
theorem interp_writeFree_runLog :
    ∀ (fuel : Nat) (p : Prog) (s : RState), WriteFree p = true →
      ((interp fuel s p).1).runLog = s.runLog := by
  intro fuel
  induction fuel with
  | zero => intro p s _; rfl
  | succ f ih =>
    intro p s hw
    cases p with
    | skip => rfl
    | fail => rfl
    | readE e => exact (evalExp_frame e s).2.2.2.2
    | seq p q =>
      rw [WriteFree, Bool.and_eq_true] at hw
      simp only [interp]
      rcases h1 : interp f s p with ⟨s1, r⟩
      have e1 := ih p s hw.1
      rw [h1] at e1
      cases r with
      | none =>
        have e2 := ih q s1 hw.2
        exact e2.trans e1
      | some er => exact e1
    | setf te k ve => simp [WriteFree] at hw
    | delf te k => simp [WriteFree] at hw
    | runList l => simp [WriteFree] at hw
    | runOne e => simp [WriteFree] at hw

/-- The callback looked up for a registered handle is write-free whenever
all registered callbacks are (an absent handle behaves as a no-op). -/
theorem allWriteFree_body (s : RState) (e : Nat) (h : AllWriteFree s = true) :
    WriteFree ((alGet s.effects e).getD .skip) = true := by
  rcases hg : alGet s.effects e with _ | p
  · rfl
  · have hm := alGet_mem s.effects e p hg
    have hall := List.all_eq_true.mp h _ hm
    simpa using hall

/-- A successful invocation of one handle with a write-free callback
appends exactly that handle to the invocation log. -/
theorem runOne_writeFree_log (f : Nat) (s : RState) (e : Nat)
    (hw : WriteFree ((alGet s.effects e).getD .skip) = true) :
    ((interp (f + 1) s (.runOne e)).1).runLog = s.runLog ++ [e] := by
  simp only [interp]
  rcases h2 : interp f
      { s with activeEffectStack := s.activeEffectStack ++ [e],
               runLog := s.runLog ++ [e] }
      ((alGet s.effects e).getD .skip) with ⟨s2, r⟩
  have hl := interp_writeFree_runLog f ((alGet s.effects e).getD .skip)
    { s with activeEffectStack := s.activeEffectStack ++ [e],
             runLog := s.runLog ++ [e] } hw
  rw [h2] at hl
  exact hl

/-- `trigger`'s iteration over a dependency list, when every registered
callback is write-free: a successful pass appends exactly the listed
handles, in order, to the invocation log — each recorded dependent is
invoked exactly once. -/
theorem interp_runList_log :
    ∀ (fuel : Nat) (l : List Nat) (s : RState), AllWriteFree s = true →
      (interp fuel s (.runList l)).2 = none →
      ((interp fuel s (.runList l)).1).runLog = s.runLog ++ l := by
  intro fuel
  induction fuel with
  | zero => intro l s _ h; simp [interp] at h
  | succ f ih =>
    intro l s hA hok
    cases l with
    | nil => simp [interp]
    | cons e t =>
      simp only [interp] at hok ⊢
      rcases h1 : interp f s (.runOne e) with ⟨s1, r⟩
      simp only [h1] at hok ⊢
      cases r with
      | some er => simp at hok
      | none =>
        have hs1log : s1.runLog = s.runLog ++ [e] := by
          cases f with
          | zero => simp [interp] at h1
          | succ g =>
            have := runOne_writeFree_log g s e (allWriteFree_body s e hA)
            rw [h1] at this
            exact this
        have hA1 : AllWriteFree s1 = true := by
          have he := (interp_frame f (.runOne e) s).1
          rw [h1] at he
          unfold AllWriteFree
          rw [he]
          exact hA
        have := ih t s1 hA1 hok
        rw [this, hs1log, List.append_assoc]
        rfl

/-! ### Concrete scenario states

`sA` is the raw object `o = {a: 1}` living at identity 0; `sAp` is the
state after `reactive(o)` has produced its proxy (identity 1).  `readA`
is the callback `() => p.a`; `writeA2` the top-level statement
`p.a = 2`. -/

/-- State holding the raw object `o = {a: 1}` at identity 0. -/
def sA : RState := { s0 with heap := [(0, [("a", .prim 1)])], nextId := 1 }

/-- `sA` after `reactive(o)`: the proxy has identity 1. -/
def sAp : RState := (reactive sA (.ref 0)).1

/-- The callback `() => { p.a }`. -/
def readA : Prog := .readE (.getf (.const (.ref 1)) "a")

/-- The top-level statement `p.a = 2`. -/
def writeA2 : Prog := .setf (.const (.ref 1)) "a" (.const (.prim 2))

/-! ### The claims -/

/-- C1: a write through the wrapper that changes the value of an owned
key re-invokes, synchronously inside the write, exactly the computations
recorded as dependents of `(object, key)` — appended to the invocation
log in order, and (the dependency set being duplicate-free) each distinct
computation exactly once per write.  Stated for any state whose
registered callbacks are write-free, so that the replayed runs cannot
start further nested writes. -/
theorem write_replays_each_previous_reader (fuel : Nat) (s : RState) (t : Nat)
    (k : String) (v : Value)
    (hA : AllWriteFree s = true)
    (hown : hasKey s t k = true)
    (hne : rawGet s t k ≠ v)
    (hok : (baseSet fuel s t k v).2 = none) :
    ((baseSet fuel s t k v).1).runLog = s.runLog ++ depsOf s t k ∧
    (∀ e, e ∈ depsOf s t k → (depsOf s t k).Nodup →
      ((baseSet fuel s t k v).1).runLog.count e = s.runLog.count e + 1) := by
  have hbs : baseSet fuel s t k v = trigger fuel (setRaw s t k v) t "set" k := by
    unfold baseSet
    dsimp only
    rw [if_neg (by simp [hown]), if_pos hne]
  rw [hbs] at hok ⊢
  unfold trigger at hok ⊢
  have hdeps : depsOf (setRaw s t k v) t k = depsOf s t k := rfl
  rw [hdeps] at hok ⊢
  have hA1 : AllWriteFree (setRaw s t k v) = true := hA
  have hlog := interp_runList_log fuel (depsOf s t k) (setRaw s t k v) hA1 hok
  have hsr : (setRaw s t k v).runLog = s.runLog := rfl
  rw [hsr] at hlog
  refine ⟨hlog, ?_⟩
  intro e he hnd
  rw [hlog, List.count_append]
  have h1 : (depsOf s t k).count e = 1 := List.count_eq_one_of_mem hnd he
  omega

/-- State with two distinct registered computations (handles 0 and 1)
both having read `(o, "a")` during their eager first runs. -/
def c1s : RState := (effect 10 ((effect 10 sAp readA).1) readA).1

/-- Witness for C1: in the two-dependent state, the single write
`p.a = 2` re-invokes computation 0 and computation 1, each exactly once,
in insertion order. -/
theorem write_replays_each_previous_reader_w :
    ((baseSet 10 c1s 0 "a" (.prim 2)).1).runLog = c1s.runLog ++ depsOf c1s 0 "a" ∧
    ((baseSet 10 c1s 0 "a" (.prim 2)).1).runLog.count 0 = c1s.runLog.count 0 + 1 ∧
    c1s.runLog = [0, 1] ∧ depsOf c1s 0 "a" = [0, 1] :=
  ⟨(write_replays_each_previous_reader 10 c1s 0 "a" (.prim 2) (by decide) (by decide)
      (by decide) (by decide)).1,
   (write_replays_each_previous_reader 10 c1s 0 "a" (.prim 2) (by decide) (by decide)
      (by decide) (by decide)).2 0 (by decide) (by decide),
   by decide, by decide⟩

/-- C2 (amended): for a callback that performs no writes or deletes,
`effect(cb)` invokes the callback exactly once, synchronously, before
returning — the invocation log grows by exactly the new handle.  (The
unamended claim, quantified over every callback, fails: see the
counterexample below, where a callback that writes a key it has read is
re-invoked a second time inside the eager first run.) -/
theorem effect_runs_callback_once (fuel : Nat) (s : RState) (p : Prog)
    (hw : WriteFree p = true) (hf : 0 < fuel) :
    ((effect fuel s p).1).runLog = s.runLog ++ [s.nextEff] := by
  obtain ⟨f, rfl⟩ : ∃ f, fuel = f + 1 := ⟨fuel - 1, by omega⟩
  have hwb : WriteFree
      ((alGet ((createReactiveEffect s p).1).effects
        (createReactiveEffect s p).2).getD .skip) = true := by
    show WriteFree ((alGet ((s.nextEff, p) :: s.effects) s.nextEff).getD .skip) = true
    simpa [alGet] using hw
  show ((interp (f + 1) (createReactiveEffect s p).1
      (.runOne (createReactiveEffect s p).2)).1).runLog = s.runLog ++ [s.nextEff]
  rw [runOne_writeFree_log f _ _ hwb]
  rfl

/-- A callback that reads `p.a` and then writes `p.a = 2`. -/
def readWriteA : Prog :=
  .seq (.readE (.getf (.const (.ref 1)) "a")) (.setf (.const (.ref 1)) "a" (.const (.prim 2)))

/-- Counterexample to C2 as stated: registering the read-then-write
callback invokes it twice before `effect` returns (the write inside the
eager first run triggers a synchronous nested re-run), so "exactly once
for every callback" is false. -/
theorem effect_runs_callback_once_cx :
    ((effect 10 sAp readWriteA).1).runLog = [0, 0] ∧
    ¬ ((effect 10 sAp readWriteA).1).runLog.count 0 = 1 := by decide

/-- Witness for C2: registering the pure reader `readA` on the wrapped
object invokes it exactly once. -/
theorem effect_runs_callback_once_w :
    WriteFree readA = true ∧
    ((effect 10 sAp readA).1).runLog = sAp.runLog ++ [sAp.nextEff] :=
  ⟨by decide, effect_runs_callback_once 10 sAp readA (by decide) (by decide)⟩

/-- C3: the `set` trap classification — for an owned key, dependents are
replayed exactly when the old value is strictly unequal to the new one
(an equal write performs only the underlying write and returns, invoking
nothing), and a write to a key the raw object does not own always
triggers, classified as an add. -/
theorem set_add_update_classification (fuel : Nat) (s : RState) (t : Nat)
    (k : String) (v : Value) :
    (hasKey s t k = true → rawGet s t k = v →
       baseSet fuel s t k v = (setRaw s t k v, none)) ∧
    (hasKey s t k = true → rawGet s t k ≠ v →
       baseSet fuel s t k v = trigger fuel (setRaw s t k v) t "set" k) ∧
    (hasKey s t k = false →
       baseSet fuel s t k v = trigger fuel (setRaw s t k v) t "add" k) := by
  refine ⟨fun h1 h2 => ?_, fun h1 h2 => ?_, fun h1 => ?_⟩
  · unfold baseSet
    dsimp only
    rw [if_neg (by simp [h1]), if_neg (by simp [h2])]
  · unfold baseSet
    dsimp only
    rw [if_neg (by simp [h1]), if_pos h2]
  · unfold baseSet
    dsimp only
    rw [if_pos h1]

/-- Witness for C3: on `o = {a: 1}`, writing `a = 1` only writes (no
trigger), writing `a = 2` takes the set-replay path, and writing the
unowned key `b` takes the add-replay path. -/
theorem set_add_update_classification_w :
    baseSet 5 sA 0 "a" (.prim 1) = (setRaw sA 0 "a" (.prim 1), none) ∧
    baseSet 5 sA 0 "a" (.prim 2) = trigger 5 (setRaw sA 0 "a" (.prim 2)) 0 "set" "a" ∧
    baseSet 5 sA 0 "b" (.prim 7) = trigger 5 (setRaw sA 0 "b" (.prim 7)) 0 "add" "b" :=
  ⟨(set_add_update_classification 5 sA 0 "a" (.prim 1)).1 (by decide) (by decide),
   (set_add_update_classification 5 sA 0 "a" (.prim 2)).2.1 (by decide) (by decide),
   (set_add_update_classification 5 sA 0 "b" (.prim 7)).2.2 (by decide)⟩

/-- Well-formedness of the identity registries, maintained by the module:
every `toProxy` entry points below the allocation counter, its proxy is
registered back in `toRaw`, and a proxy is never itself a key of
`toProxy` (raw objects and proxies are disjoint); every `toRaw` entry
stays below the counter. -/
def WF (s : RState) : Bool :=
  s.toProxy.all (fun rp => decide (rp.1 < s.nextId) && decide (rp.2 < s.nextId)
     && decide (alGet s.toRaw rp.2 = some rp.1) && decide (alGet s.toProxy rp.2 = none))
  && s.toRaw.all (fun pr => decide (pr.1 < s.nextId) && decide (pr.2 < s.nextId))

/-- A value holds no dangling reference: any object identity it mentions
has already been allocated. -/
def ValidVal (s : RState) : Value → Bool
  | .ref id => decide (id < s.nextId)
  | _ => true

/-- C4: wrapping is idempotent with stable identity.  In a well-formed
state, if `reactive` maps `v` to `(s1, w)`, then calling `reactive`
again on `v` returns the same wrapper `w` without touching the state,
and wrapping the wrapper `w` itself returns it unchanged — never a proxy
of a proxy. -/
theorem reactive_idempotent (s : RState) (v : Value) (s1 : RState) (w : Value)
    (hwf : WF s = true) (hv : ValidVal s v = true)
    (h : reactive s v = (s1, w)) :
    reactive s1 v = (s1, w) ∧ reactive s1 w = (s1, w) := by
  unfold WF at hwf
  rw [Bool.and_eq_true] at hwf
  have hproxyAll := hwf.1
  unfold reactive createReactiveObject at h ⊢
  cases v with
  | prim n => cases h; exact ⟨rfl, rfl⟩
  | undefined => cases h; exact ⟨rfl, rfl⟩
  | fn i => cases h; exact ⟨rfl, rfl⟩
  | ref id =>
    rcases hp : alGet s.toProxy id with _ | p
    · simp only [hp] at h
      by_cases hr : (alGet s.toRaw id).isSome
      · rw [if_pos hr] at h
        cases h
        constructor <;> (simp only [hp]; rw [if_pos hr])
      · rw [if_neg hr] at h
        cases h
        have hid : id < s.nextId := by
          have := of_decide_eq_true hv
          exact this
        have hidne : id ≠ s.nextId := Nat.ne_of_lt hid
        constructor
        · simp [alGet]
        · have hbound : ∀ x ∈ s.toProxy, x.1 < s.nextId := by
            intro x hx
            have := List.all_eq_true.mp hproxyAll x hx
            rw [Bool.and_eq_true, Bool.and_eq_true, Bool.and_eq_true] at this
            exact of_decide_eq_true this.1.1.1
          have hnone : alGet s.toProxy s.nextId = none :=
            alGet_keys_lt_none s.toProxy s.nextId hbound
          simp [alGet, hidne, hnone]
    · simp only [hp] at h
      cases h
      have hm := alGet_mem s.toProxy id p hp
      have hfacts := List.all_eq_true.mp hproxyAll _ hm
      rw [Bool.and_eq_true, Bool.and_eq_true, Bool.and_eq_true] at hfacts
      have hraw : alGet s.toRaw p = some id := of_decide_eq_true hfacts.1.2
      have hnop : alGet s.toProxy p = none := of_decide_eq_true hfacts.2
      constructor
      · simp only [hp]
      · simp only [hnop]
        rw [if_pos (by rw [hraw]; rfl)]

/-- Witness for C4: wrapping `o = {a: 1}` allocates proxy 1; re-wrapping
the raw object and wrapping the proxy both return the same wrapper with
the state untouched. -/
theorem reactive_idempotent_w :
    reactive sAp (.ref 0) = (sAp, .ref 1) ∧ reactive sAp (.ref 1) = (sAp, .ref 1) :=
  reactive_idempotent sA (.ref 0) sAp (.ref 1) (by decide) (by decide) (by decide)

/-- Top-level script of C5: read `p.a` outside any computation, then
write `p.a = 2`. -/
def readThenWriteTop : Prog := .seq (.readE (.getf (.const (.ref 1)) "a")) writeA2

/-- C5: a read with no active computation records nothing — `track` with
an empty active-effect stack is the identity on the state — and in the
concrete scenario a top-level read of `wrap(o).a` followed by the write
`wrap(o).a = 2` completes with an empty dependency graph, an empty
invocation log (no computation was ever invoked), and the written value
in place. -/
theorem toplevel_read_registers_nothing :
    (∀ (s : RState) (t : Nat) (k : String),
       s.activeEffectStack = [] → track s t k = s) ∧
    ((interp 10 sAp readThenWriteTop).2 = none ∧
     ((interp 10 sAp readThenWriteTop).1).targetMap = [] ∧
     ((interp 10 sAp readThenWriteTop).1).runLog = [] ∧
     rawGet ((interp 10 sAp readThenWriteTop).1) 0 "a" = .prim 2) := by
  constructor
  · intro s t k h
    unfold track
    rw [h]
    rfl
  · decide

/-- Witness for C5: applying the tracked-nothing property at the
concrete wrapped state (whose stack is empty). -/
theorem toplevel_read_registers_nothing_w : track sAp 0 "a" = sAp :=
  toplevel_read_registers_nothing.1 sAp 0 "a" (by decide)

/-- Initial state of C6: `o = {nested: {x: 1}}` — the outer record at
identity 0, the inner at identity 1. -/
def sNested : RState :=
  { s0 with heap := [(0, [("nested", .ref 1)]), (1, [("x", .prim 1)])], nextId := 2 }

/-- `sNested` after `reactive(o)`: the outer proxy has identity 2. -/
def sNestedP : RState := (reactive sNested (.ref 0)).1

/-- The callback `() => { p.nested.x }` through the outer proxy. -/
def readNestedX : Prog := .readE (.getf (.getf (.const (.ref 2)) "nested") "x")

/-- State after registering `readNestedX` (handle 0, eager first run). -/
def c6mid : RState := (effect 10 sNestedP readNestedX).1

/-- Result of the top-level write `p.nested.x = 2`. -/
def c6fin : RState × Option Err :=
  interp 10 c6mid (.setf (.getf (.const (.ref 2)) "nested") "x" (.const (.prim 2)))

/-- C6: reading a property whose underlying value is an object returns
its wrapper, not the raw reference (here the freshly allocated proxy 3
over raw object 1), so the computation reading `p.nested.x` is recorded
as a dependent of the inner object and is re-run by the write
`p.nested.x = 2`. -/
theorem nested_read_returns_wrapper_and_retracks :
    (baseGet sNestedP 0 "nested").2 = .ref 3 ∧
    rawGet sNestedP 0 "nested" = .ref 1 ∧
    alGet (c6mid.toRaw) 3 = some 1 ∧
    c6mid.runLog = [0] ∧ depsOf c6mid 1 "x" = [0] ∧
    c6fin.2 = none ∧ (c6fin.1).runLog = [0, 0] ∧
    rawGet c6fin.1 1 "x" = .prim 2 := by decide

/-- C7: the stack discipline of `run` — any invocation of a handle
restores the active-effect stack exactly (push before the callback, pop
on every exit path), the outcome of a run is exactly the outcome of its
callback (errors are never swallowed by the pop), and concretely a
registered callback that throws propagates its error out of `effect`
while leaving the stack empty. -/
theorem run_stack_discipline :
    (∀ (fuel : Nat) (s : RState) (e : Nat),
       ((run fuel s e).1).activeEffectStack = s.activeEffectStack) ∧
    (∀ (fuel : Nat) (s : RState) (e : Nat),
       (run (fuel + 1) s e).2 =
         (interp fuel { s with activeEffectStack := s.activeEffectStack ++ [e],
                               runLog := s.runLog ++ [e] }
            ((alGet s.effects e).getD .skip)).2) ∧
    ((effect 5 s0 .fail).2.1 = some .userErr ∧
     ((effect 5 s0 .fail).1).activeEffectStack = []) := by
  refine ⟨?_, ?_, by decide⟩
  · intro fuel s e
    exact (interp_frame fuel (.runOne e) s).2.2
  · intro fuel s e
    unfold run
    simp only [interp]

/-- C8 (amended): `effect(callback)` creates the handle and invokes it
once, but its JavaScript function body has no return statement, so the
call returns `undefined` — the handle is never handed back to the
caller. -/
theorem effect_returns_undefined (fuel : Nat) (s : RState) (p : Prog) :
    (effect fuel s p).2.2 = Value.undefined ∧
    ∀ i, (effect fuel s p).2.2 ≠ Value.fn i :=
  ⟨rfl, fun _ h => Value.noConfusion h⟩

/-- Counterexample to C8 as stated: registering the reader callback on
the wrapped object allocates handle 0, yet the value returned by
`effect` is `undefined`, not the handle. -/
theorem effect_returns_undefined_cx :
    (createReactiveEffect sAp readA).2 = 0 ∧
    (effect 10 sAp readA).2.2 = Value.undefined ∧
    ¬ (effect 10 sAp readA).2.2 = Value.fn 0 := by decide

/-- State of C9: the reader computation (handle 0) has run once and is
recorded as a dependent of `(o, "a")`. -/
def c9mid : RState := (effect 10 sAp readA).1

/-- Result of the top-level `delete p.a` through the proxy. -/
def c9fin : RState × Option Err := interp 10 c9mid (.delf (.const (.ref 1)) "a")

/-- C9: the `deleteProperty` trap performs the underlying delete and
nothing else — invocation log, dependency graph and stack are untouched
in every state (no replay path exists for delete), and in the concrete
scenario the recorded dependent of the deleted key is not re-invoked. -/
theorem delete_never_replays :
    (∀ (s : RState) (t : Nat) (k : String),
       (baseDelete s t k).runLog = s.runLog ∧
       (baseDelete s t k).targetMap = s.targetMap ∧
       (baseDelete s t k).activeEffectStack = s.activeEffectStack ∧
       rawGet (baseDelete s t k) t k = .undefined) ∧
    (depsOf c9mid 0 "a" = [0] ∧ c9fin.2 = none ∧
     (c9fin.1).runLog = c9mid.runLog ∧ rawGet c9fin.1 0 "a" = .undefined) := by
  constructor
  · intro s t k
    refine ⟨rfl, rfl, rfl, ?_⟩
    unfold baseDelete delRaw rawGet
    rw [alGet_alSet_self]
    simp [alGet_alDel_self]
  · decide

/-- Initial state of C10: the empty raw object `o = {}` at identity 0. -/
def sEmptyObj : RState := { s0 with heap := [(0, [])], nextId := 1 }

/-- `sEmptyObj` after `reactive(o)`: the proxy has identity 1. -/
def sEmptyObjP : RState := (reactive sEmptyObj (.ref 0)).1

/-- State after registering the reader of the absent key `a`. -/
def c10mid : RState := (effect 10 sEmptyObjP readA).1

/-- Result of the first write `p.a = 5` (an add). -/
def c10fin : RState × Option Err :=
  interp 10 c10mid (.setf (.const (.ref 1)) "a" (.const (.prim 5)))

/-- C10: reading an absent key inside a computation returns `undefined`
but still records the dependency, so the later first write of that key —
an add — re-runs the computation. -/
theorem absent_key_read_is_tracked :
    rawGet sEmptyObjP 0 "a" = .undefined ∧ hasKey sEmptyObjP 0 "a" = false ∧
    c10mid.runLog = [0] ∧ depsOf c10mid 0 "a" = [0] ∧
    c10fin.2 = none ∧ (c10fin.1).runLog = [0, 0] ∧
    rawGet c10fin.1 0 "a" = .prim 5 := by decide

end Reactive
